import Mathlib

/-!
Shallow embedding of the version-registry / resolver subsystem of
`src/renderer/versions.ts`, together with the external collaborators it
depends on (filesystem existence, executable-path layout, version-string
normalization), which are passed in as explicit function parameters.

JavaScript strings are modelled as Lean `String` / `List Char`; JavaScript
`undefined`-able fields are `Option`; `localStorage` is an
`Option (List Entry)` (the parsed contents under the local-entries key);
`process.env.NUM_STABLE_BRANCHES` is an `Option String`.
-/

namespace Fiddle

/-- VersionSource from the interfaces module: discriminant of a
`RunnableVersion` (`local` or `remote`). -/
inductive VersionSource where
  | «local»
  | remote
deriving DecidableEq

/-- InstallState from fiddle-core; `getVersionState` only ever produces
`missing` or `installed`. -/
inductive InstallState where
  | missing
  | downloading
  | downloaded
  | installing
  | installed
deriving DecidableEq

/-- ElectronReleaseChannel from the interfaces module. -/
inductive ElectronReleaseChannel where
  | stable
  | beta
  | nightly
deriving DecidableEq

/-- A JavaScript record as handled by versions.ts. A plain `Version` has
`source = none` and `state = none`; a `RunnableVersion` carries both
discriminants. The legacy pre-0.5 persisted shape used `tag_name` and `url`
(consulted only by `migrateVersions`); JavaScript objects are open records,
so all of these optional fields live on one structure. -/
structure Entry where
  version : String
  name : Option String
  localPath : Option String
  tag_name : Option String
  url : Option String
  source : Option VersionSource
  state : Option InstallState
deriving DecidableEq

/-- Builds a plain `Version` record `{version, name?, localPath?}`. -/
def mkVersion (version : String) (name localPath : Option String) : Entry :=
  ⟨version, name, localPath, none, none, none, none⟩

/-- Truthiness of a JavaScript string-or-undefined value: `undefined` and
the empty string are falsy, every other string is truthy. -/
def truthyStr : Option String → Bool
  | none => false
  | some s => s ≠ ""

/-- Decides whether `needle` occurs as a contiguous subsequence of `hay`
(the JavaScript `String.prototype.includes`, on exploded strings). -/
def containsSeq (needle : List Char) : List Char → Bool
  | [] => needle.isEmpty
  | c :: rest => needle.isPrefixOf (c :: rest) || containsSeq needle rest

/-- JavaScript `s.includes(sub)`. -/
def strIncludes (s sub : String) : Bool :=
  containsSeq sub.data s.data

/-- JavaScript `s.endsWith(suffix)`. -/
def strEndsWith (s suffix : String) : Bool :=
  suffix.data.reverse.isPrefixOf s.data.reverse

/-- Numeric value of a list of decimal digit characters. -/
def digitsVal (cs : List Char) : Nat :=
  cs.foldl (fun a c => 10 * a + (c.toNat - 48)) 0

/-- JavaScript `Number.parseInt` restricted to the shapes appearing here:
an optional sign followed by a maximal run of leading decimal digits;
`none` models the `NaN` result when no leading digit exists. -/
def jsParseInt (s : String) : Option Int :=
  match s.data with
  | '-' :: rest =>
      let ds := rest.takeWhile Char.isDigit
      if ds.isEmpty then none else some (-(digitsVal ds : Int))
  | '+' :: rest =>
      let ds := rest.takeWhile Char.isDigit
      if ds.isEmpty then none else some (digitsVal ds : Int)
  | cs =>
      let ds := cs.takeWhile Char.isDigit
      if ds.isEmpty then none else some (digitsVal ds : Int)

/-- JavaScript `arr.slice(-n)` for an integer `n` (as used by
`getOldestSupportedMajor`): for positive `n` the last `n` elements (the
whole array when it is shorter); for negative `n` the elements from index
`-n` on; for `n = 0` the whole array. -/
def jsSliceNeg (l : List α) (n : Int) : List α :=
  if 0 < n then l.drop (l.length - n.toNat) else l.drop (-n).toNat

/-- A parsed strict semantic version with empty prerelease:
(major, minor, patch). -/
abbrev Semver := Nat × Nat × Nat

/-- Parses one numeric identifier of a semantic version: a nonempty digit
run with no leading zero. -/
def parseNumId (cs : List Char) : Option Nat :=
  if cs ≠ [] ∧ cs.all Char.isDigit ∧ (cs.length = 1 ∨ cs.head? ≠ some '0') then
    some (digitsVal cs)
  else none

/-- Splits a character list on a separator character. -/
def splitOnChar (sep : Char) : List Char → List (List Char)
  | [] => [[]]
  | c :: cs =>
      let r := splitOnChar sep cs
      if c = sep then [] :: r
      else
        match r with
        | [] => [[c]]
        | h :: t => (c :: h) :: t

/-- Models `semver.parse` on the hyphen-free strings this code path feeds
it: an optional leading `v`, then `major.minor.patch` numeric identifiers,
then optional ignored `+build` metadata. Prerelease tags always contain a
hyphen and are filtered out before parsing, so they are out of scope. -/
def parseSemver (s : String) : Option Semver :=
  let cs := if s.data.head? = some 'v' then s.data.tail else s.data
  match splitOnChar '.' (cs.takeWhile (· ≠ '+')) with
  | [a, b, c] =>
      match parseNumId a, parseNumId b, parseNumId c with
      | some x, some y, some z => some (x, y, z)
      | _, _, _ => none
  | _ => none

/-- Canonical string of a parsed semantic version (the `.version` property
of a semver object: build metadata stripped). -/
def canonicalSemver (v : Semver) : String :=
  toString v.1 ++ "." ++ toString v.2.1 ++ "." ++ toString v.2.2

/-- Ordering of stable semantic versions, as `semver.compare` induces it:
lexicographic on (major, minor, patch). -/
def svLe (a b : Semver) : Prop :=
  a.1 < b.1 ∨ (a.1 = b.1 ∧ (a.2.1 < b.2.1 ∨ (a.2.1 = b.2.1 ∧ a.2.2 ≤ b.2.2)))

instance : DecidableRel svLe := fun a b => by
  unfold svLe; infer_instance

/-- Descending comparison used by `.sort((a, b) => -semver.compare(a, b))`. -/
def svGe (a b : Semver) : Prop := svLe b a

instance : DecidableRel svGe := fun a b => by
  unfold svGe; infer_instance

theorem svLe_refl (a : Semver) : svLe a a := by
  unfold svLe; omega

theorem svLe_trans {a b c : Semver} (h₁ : svLe a b) (h₂ : svLe b c) : svLe a c := by
  unfold svLe at *; omega

theorem svLe_total (a b : Semver) : svLe a b ∨ svLe b a := by
  unfold svLe; omega

instance : IsTotal Semver svGe := ⟨fun a b => svLe_total b a⟩

instance : IsTrans Semver svGe := ⟨fun _ _ _ h₁ h₂ => svLe_trans h₂ h₁⟩

/-- Errors that `getDefaultVersion` can throw: the explicit
`new Error('Corrupted version data')`, and the `TypeError` raised when the
sort comparator `-semver.compare(a!, b!)` is applied to a `null` produced
by a failed parse (any array of length at least two is compared at least
once, so a `null` member is always hit). -/
inductive JsError where
  | corruptedVersionData
  | typeError
deriving DecidableEq

/-- getDefaultVersion from versions.ts. `storedKey` models
`localStorage.getItem('version')` (`none` = absent). Returns `.ok` for a
normal return and `.error` for a thrown exception. -/
def getDefaultVersion (storedKey : Option String) (versions : List Entry) :
    Except JsError String :=
  let key := storedKey.getD ""
  if key ≠ "" ∧ versions.any (fun v => v.version == key) then .ok key
  else
    let stable := versions.filter (fun v => !strIncludes v.version "-")
    let parsed := stable.map (fun v => parseSemver v.version)
    if 2 ≤ parsed.length ∧ parsed.any Option.isNone then .error .typeError
    else
      match (List.insertionSort svGe (parsed.filterMap id)).head? with
      | some m => .ok (canonicalSemver m)
      | none => .error .corruptedVersionData

/-- getReleaseChannel from versions.ts, on the version-string form of its
input (a record input contributes `input.version || ''`). -/
def getReleaseChannel (tag : String) : ElectronReleaseChannel :=
  if strIncludes tag "beta" || strIncludes tag "alpha" then .beta
  else if strIncludes tag "nightly" then .nightly
  else .stable

/-- getVersionState from versions.ts. The filesystem (`fs.existsSync`) and
the layout collaborator (`Installer.getExecPath`) are explicit parameters. -/
def getVersionState (fsExists : String → Bool) (execPath : String → String)
    (ver : Entry) : InstallState :=
  match ver.localPath with
  | some lp => if fsExists (execPath lp) then .installed else .missing
  | none => .missing

/-- makeRunnable from versions.ts; `norm` is the external
`normalizeVersion` collaborator. The spread `{...ver}` keeps every other
field of the record. -/
def makeRunnable (norm : String → String) (fsExists : String → Bool)
    (execPath : String → String) (ver : Entry) : Entry :=
  ⟨norm ver.version, ver.name, ver.localPath, ver.tag_name, ver.url,
   some (if truthyStr ver.localPath then VersionSource.«local» else VersionSource.remote),
   some (getVersionState fsExists execPath ver)⟩

/-- isElectronVersion from versions.ts: a record is a `RunnableVersion`
iff its `source` field is not `undefined`. -/
def isElectronVersion (v : Entry) : Bool :=
  v.source.isSome

/-- isExpectedFormat from versions.ts: every entry has a truthy `version`. -/
def isExpectedFormat (l : List Entry) : Bool :=
  l.all (fun e => e.version ≠ "")

/-- migrateVersions from versions.ts: keeps exactly the raw entries whose
legacy triple `{tag_name, name, url}` is entirely truthy, rewriting each to
`{version: tag_name, name, localPath: url}`. (The surrounding
`filter(item => !!item)` passes over `null` array members, which are
outside this model of well-typed records.) -/
def migrateVersions (l : List Entry) : List Entry :=
  l.filterMap (fun item =>
    match item.tag_name, item.name, item.url with
    | some t, some n, some u =>
        if t ≠ "" ∧ n ≠ "" ∧ u ≠ "" then some (mkVersion t (some n) (some u))
        else none
    | _, _, _ => none)

/-- saveLocalVersions from versions.ts, as the list that gets serialized
under the local-entries key: entries carrying a `source` discriminant are
kept only when it is `local`; plain `Version` records pass unfiltered. -/
def saveLocalVersions (versions : List Entry) : List Entry :=
  versions.filter (fun v =>
    if isElectronVersion v then v.source == some VersionSource.«local» else true)

/-- getVersions from versions.ts for the local-entries key (fallback
`() => []`), over a store modelled as the parsed contents under that key.
Returns the result list together with the store contents afterwards
(migration re-saves through `saveLocalVersions`). -/
def getVersionsLocal (store : Option (List Entry)) :
    List Entry × Option (List Entry) :=
  match store with
  | none => ([], none)
  | some l =>
      if isExpectedFormat l then (l, some l)
      else
        let migrated := migrateVersions l
        (migrated, some (saveLocalVersions migrated))

/-- addLocalVersion from versions.ts: load the local list, push `input`
only if no existing entry has the same `localPath` (JavaScript `===` on
two `undefined` values is true, so two absent paths match), save, and
return the list. Result: (returned list, store contents afterwards). -/
def addLocalVersion (store : Option (List Entry)) (input : Entry) :
    List Entry × Option (List Entry) :=
  let p := getVersionsLocal store
  let versions :=
    if p.1.any (fun v => v.localPath == input.localPath) then p.1
    else p.1 ++ [input]
  (versions, some (saveLocalVersions versions))

/-- getLocalVersionForPath from versions.ts: first local entry whose
`localPath` equals the given folder path. -/
def getLocalVersionForPath (store : Option (List Entry)) (folderPath : String) :
    Option Entry :=
  (getVersionsLocal store).1.find? (fun v => v.localPath == some folderPath)

/-- The `NUM_BRANCHES` computation of getOldestSupportedMajor:
`parseInt(process.env.NUM_STABLE_BRANCHES || '') || 4` — absent, empty,
non-numeric (NaN) and `0` (both falsy) all default to 4. -/
def numStableBranches (env : Option String) : Int :=
  match jsParseInt (env.getD "") with
  | none => 4
  | some k => if k = 0 then 4 else k

/-- getOldestSupportedMajor from versions.ts over the released-versions
catalog (the list of version strings supplied by the catalog collaborator):
keep versions ending in ".0.0", parse each leading integer, sort
ascending, `slice(-NUM_BRANCHES)`, `shift()`. The model drops unparseable
markers (`Number.parseInt` = NaN), whose position under the JavaScript
numeric sort is implementation-defined; theorems about this function
assume every marker parses. -/
def getOldestSupportedMajor (catalog : List String) (env : Option String) :
    Option Int :=
  let n := numStableBranches env
  let majors := (catalog.filter (fun v => strEndsWith v ".0.0")).filterMap jsParseInt
  (jsSliceNeg (List.insertionSort (fun a b : Int => a ≤ b) majors) n).head?

/-! Helper lemmas shared by several claims. -/

/-- The head of the descending insertion sort is a maximum of the input. -/
theorem head_sorted_svGe {l : List Semver} {m : Semver}
    (h : (List.insertionSort svGe l).head? = some m) :
    m ∈ l ∧ ∀ x ∈ l, svLe x m := by
  have hperm := List.perm_insertionSort svGe l
  have hsort := List.sorted_insertionSort svGe l
  cases hs : List.insertionSort svGe l with
  | nil => rw [hs] at h; exact absurd h (by simp)
  | cons a t =>
      rw [hs] at h hperm hsort
      obtain rfl : a = m := by simpa using h
      refine ⟨hperm.mem_iff.mp (by simp), fun x hx => ?_⟩
      rcases List.mem_cons.mp (hperm.mem_iff.mpr hx) with rfl | hxt
      · exact svLe_refl x
      · exact List.rel_of_sorted_cons hsort x hxt

/-- The head of the ascending insertion sort of integers is a minimum. -/
theorem head_sorted_intLe {l : List Int} {m : Int}
    (h : (List.insertionSort (fun a b : Int => a ≤ b) l).head? = some m) :
    m ∈ l ∧ ∀ x ∈ l, m ≤ x := by
  have hperm := List.perm_insertionSort (fun a b : Int => a ≤ b) l
  have hsort := List.sorted_insertionSort (fun a b : Int => a ≤ b) l
  cases hs : List.insertionSort (fun a b : Int => a ≤ b) l with
  | nil => rw [hs] at h; exact absurd h (by simp)
  | cons a t =>
      rw [hs] at h hperm hsort
      obtain rfl : a = m := by simpa using h
      refine ⟨hperm.mem_iff.mp (by simp), fun x hx => ?_⟩
      rcases List.mem_cons.mp (hperm.mem_iff.mpr hx) with rfl | hxt
      · exact le_refl x
      · exact List.rel_of_sorted_cons hsort x hxt

/-- When the stored preference misses every candidate, the guard of
`getDefaultVersion` is false. -/
theorem pref_guard_false (storedKey : Option String) (versions : List Entry)
    (hnomatch : ∀ v ∈ versions, storedKey ≠ some v.version) :
    ¬(storedKey.getD "" ≠ "" ∧
        versions.any (fun v => v.version == storedKey.getD "")) := by
  rintro ⟨hne, hany⟩
  obtain ⟨v, hv, hveq⟩ := List.any_eq_true.mp hany
  have hveq' : v.version = storedKey.getD "" := by simpa using hveq
  cases storedKey with
  | none => exact hne rfl
  | some k => exact hnomatch v hv (by simpa using hveq'.symm)

/-! Claim theorems. -/

/-- C3 (counterexample): the claim quantifies over every stored preference
string; the empty string is a stored preference string that exactly equals
the `version` field of the candidate `{version: ""}`, yet `getDefaultVersion`
does not return it (the `if (key && ...)` guard treats `""` as falsy and the
call ends in the corrupted-data throw instead). -/
theorem claim3_counterexample :
    (mkVersion "" none none).version = "" ∧
      getDefaultVersion (some "") [mkVersion "" none none] =
        .error .corruptedVersionData := ⟨rfl, rfl⟩

/-- C3 (amended): for every NON-EMPTY stored preference string that exactly
equals some candidate's `version` field, `getDefaultVersion` returns that
stored string verbatim, even when a candidate with a strictly greater stable
semantic version exists in the list. -/
theorem claim3_stored_pref_verbatim (key : String) (versions : List Entry)
    (hk : key ≠ "") (hmem : ∃ v ∈ versions, v.version = key) :
    getDefaultVersion (some key) versions = .ok key := by
  obtain ⟨v, hv, hveq⟩ := hmem
  have hc : key ≠ "" ∧ versions.any (fun v => v.version == key) :=
    ⟨hk, List.any_eq_true.mpr ⟨v, hv, by simpa using hveq⟩⟩
  unfold getDefaultVersion
  simp only [Option.getD_some]
  rw [if_pos hc]

/-- C3 witness: a stored preference "9.0.0" is returned although the
strictly newer stable candidate "10.0.0" is present. -/
theorem claim3_witness :
    getDefaultVersion (some "9.0.0")
      [mkVersion "10.0.0" none none, mkVersion "9.0.0" none none] =
      .ok "9.0.0" :=
  claim3_stored_pref_verbatim "9.0.0"
    [mkVersion "10.0.0" none none, mkVersion "9.0.0" none none]
    (by decide) ⟨mkVersion "9.0.0" none none, by simp, rfl⟩

/-- C6: the channel classifier applies its rules in fixed order with first
match winning — a string containing "alpha" or "beta" maps to beta;
otherwise one containing "nightly" maps to nightly; otherwise stable — and
in particular "10.0.0-alpha-nightly" maps to beta, "10.0.0-nightly.1" to
nightly, "10.0.0" to stable (and "10.0.0-beta.1" to beta). -/
theorem claim6_channel_rules :
    (∀ tag : String, (strIncludes tag "beta" || strIncludes tag "alpha") = true →
        getReleaseChannel tag = .beta) ∧
      (∀ tag : String, (strIncludes tag "beta" || strIncludes tag "alpha") = false →
        strIncludes tag "nightly" = true → getReleaseChannel tag = .nightly) ∧
      (∀ tag : String, (strIncludes tag "beta" || strIncludes tag "alpha") = false →
        strIncludes tag "nightly" = false → getReleaseChannel tag = .stable) ∧
      getReleaseChannel "10.0.0-alpha-nightly" = .beta ∧
      getReleaseChannel "10.0.0-nightly.1" = .nightly ∧
      getReleaseChannel "10.0.0" = .stable ∧
      getReleaseChannel "10.0.0-beta.1" = .beta := by
  refine ⟨fun tag h => ?_, fun tag h₁ h₂ => ?_, fun tag h₁ h₂ => ?_,
    rfl, rfl, rfl, rfl⟩
  · simp [getReleaseChannel, h]
  · simp [getReleaseChannel, h₁, h₂]
  · simp [getReleaseChannel, h₁, h₂]

/-- C6 witness: the first classifier rule applied at a concrete tag. -/
theorem claim6_witness : getReleaseChannel "4.0.0-beta.2" = .beta :=
  claim6_channel_rules.1 "4.0.0-beta.2" (by decide)

/-- C7: if `localPath` is absent the state resolver returns `missing`
without consulting the filesystem (for every filesystem and layout
collaborator); if `localPath` is present it returns `installed` iff the
platform-specific executable path computed under `localPath` exists on disk
at the time of the call. -/
theorem claim7_state_resolver :
    (∀ (fsExists : String → Bool) (execPath : String → String) (ver : Entry),
        ver.localPath = none → getVersionState fsExists execPath ver = .missing) ∧
      ∀ (fsExists : String → Bool) (execPath : String → String) (ver : Entry)
        (lp : String), ver.localPath = some lp →
        (getVersionState fsExists execPath ver = .installed ↔
          fsExists (execPath lp) = true) := by
  constructor
  · intro fsExists execPath ver h
    simp [getVersionState, h]
  · intro fsExists execPath ver lp h
    simp only [getVersionState, h]
    by_cases hfs : fsExists (execPath lp) = true
    · simp [hfs]
    · simp only [Bool.not_eq_true] at hfs
      simp [hfs]

/-- C7 witness: a remote-only entry resolves to missing even on a
filesystem where every path exists. -/
theorem claim7_witness :
    getVersionState (fun _ => true) id (mkVersion "1.0.0" none none) = .missing :=
  claim7_state_resolver.1 (fun _ => true) id (mkVersion "1.0.0" none none) rfl

/-- C9 (counterexample): a record with `localPath = ""` derives
`source = remote` (empty string is falsy for `Boolean(localPath)`) but its
state is computed through the `localPath !== undefined` branch, so on a disk
where the computed executable path exists the runnable is
`source = remote, state = installed` — a remote-source entry reported
installed, contradicting the claim. -/
theorem claim9_counterexample :
    (makeRunnable id (fun _ => true) id (mkVersion "1.0.0" none (some ""))).source =
        some VersionSource.remote ∧
      (makeRunnable id (fun _ => true) id (mkVersion "1.0.0" none (some ""))).state =
        some InstallState.installed := ⟨rfl, rfl⟩

/-- C9 (amended): for every Version record whose `localPath` is absent
(`undefined`, as opposed to merely falsy), the RunnableVersion produced by
`makeRunnable` has `source = remote` and `state = missing`; such a
remote-source entry is never reported installed. -/
theorem claim9_remote_missing (norm : String → String) (fsExists : String → Bool)
    (execPath : String → String) (ver : Entry) (h : ver.localPath = none) :
    (makeRunnable norm fsExists execPath ver).source = some VersionSource.remote ∧
      (makeRunnable norm fsExists execPath ver).state = some InstallState.missing := by
  constructor
  · simp [makeRunnable, truthyStr, h]
  · simp [makeRunnable, getVersionState, h]

/-- C9 witness: a concrete remote entry assembles to remote/missing. -/
theorem claim9_witness :
    (makeRunnable id (fun _ => true) id (mkVersion "2.0.0" none none)).source =
        some VersionSource.remote ∧
      (makeRunnable id (fun _ => true) id (mkVersion "2.0.0" none none)).state =
        some InstallState.missing :=
  claim9_remote_missing id (fun _ => true) id (mkVersion "2.0.0" none none) rfl

/-- C4: when no stored preference matches any candidate, `getDefaultVersion`
keeps only candidates whose version string contains no hyphen, sorts them as
semantic versions descending and returns the first (a maximum of the parsed
stable candidates, rendered in canonical form); in particular over
[10.0.0, 11.0.0-beta.1, 9.0.0] it returns "10.0.0". -/
theorem claim4_default_newest_stable :
    (∀ (storedKey : Option String) (versions : List Entry),
        (∀ v ∈ versions, storedKey ≠ some v.version) →
        (∀ v ∈ versions, strIncludes v.version "-" = false →
          (parseSemver v.version).isSome) →
        (versions.filter (fun v => !strIncludes v.version "-")).filterMap
            (fun v => parseSemver v.version) ≠ [] →
        ∃ m,
          m ∈ (versions.filter (fun v => !strIncludes v.version "-")).filterMap
              (fun v => parseSemver v.version) ∧
          (∀ x ∈ (versions.filter (fun v => !strIncludes v.version "-")).filterMap
              (fun v => parseSemver v.version), svLe x m) ∧
          getDefaultVersion storedKey versions = .ok (canonicalSemver m)) ∧
      getDefaultVersion none
        [mkVersion "10.0.0" none none, mkVersion "11.0.0-beta.1" none none,
         mkVersion "9.0.0" none none] = .ok "10.0.0" := by
  refine ⟨?_, rfl⟩
  intro storedKey versions hnomatch hparse hne
  have hnone : ∀ o ∈ (versions.filter (fun v => !strIncludes v.version "-")).map
      (fun v => parseSemver v.version), o.isNone = false := by
    intro o ho
    obtain ⟨v, hv, rfl⟩ := List.mem_map.mp ho
    obtain ⟨hv1, hv2⟩ := List.mem_filter.mp hv
    have hhf : strIncludes v.version "-" = false := by simpa using hv2
    have hps := hparse v hv1 hhf
    cases hpv : parseSemver v.version with
    | none => rw [hpv] at hps; simp at hps
    | some w => rfl
  have hmapid : ((versions.filter (fun v => !strIncludes v.version "-")).map
        (fun v => parseSemver v.version)).filterMap id =
      (versions.filter (fun v => !strIncludes v.version "-")).filterMap
        (fun v => parseSemver v.version) := by
    rw [List.filterMap_map]
    rfl
  obtain ⟨m₀, hh⟩ : ∃ m, (List.insertionSort svGe
      ((versions.filter (fun v => !strIncludes v.version "-")).filterMap
        (fun v => parseSemver v.version))).head? = some m := by
    cases hh : (List.insertionSort svGe
        ((versions.filter (fun v => !strIncludes v.version "-")).filterMap
          (fun v => parseSemver v.version))).head? with
    | some m => exact ⟨m, rfl⟩
    | none =>
        rw [List.head?_eq_none_iff] at hh
        have hperm := List.perm_insertionSort svGe
          ((versions.filter (fun v => !strIncludes v.version "-")).filterMap
            (fun v => parseSemver v.version))
        rw [hh] at hperm
        exact absurd hperm.symm.eq_nil hne
  obtain ⟨hmem, hmax⟩ := head_sorted_svGe hh
  refine ⟨m₀, hmem, hmax, ?_⟩
  have hguard := pref_guard_false storedKey versions hnomatch
  have hc2 : ¬(2 ≤ ((versions.filter (fun v => !strIncludes v.version "-")).map
        (fun v => parseSemver v.version)).length ∧
      ((versions.filter (fun v => !strIncludes v.version "-")).map
        (fun v => parseSemver v.version)).any Option.isNone) := by
    rintro ⟨-, hany⟩
    obtain ⟨o, ho, hiso⟩ := List.any_eq_true.mp hany
    rw [hnone o ho] at hiso
    exact Bool.noConfusion hiso
  simp only [getDefaultVersion]
  rw [if_neg hguard, if_neg hc2, hmapid, hh]

/-- C4 witness: the general clause applied to a one-candidate list. -/
theorem claim4_witness :
    ∃ m,
      m ∈ ([mkVersion "5.0.0" none none].filter
          (fun v => !strIncludes v.version "-")).filterMap
          (fun v => parseSemver v.version) ∧
        (∀ x ∈ ([mkVersion "5.0.0" none none].filter
            (fun v => !strIncludes v.version "-")).filterMap
            (fun v => parseSemver v.version), svLe x m) ∧
        getDefaultVersion none [mkVersion "5.0.0" none none] =
          .ok (canonicalSemver m) :=
  claim4_default_newest_stable.1 none [mkVersion "5.0.0" none none]
    (by decide) (by decide) (by decide)

/-- C5: when no stored preference matches and the hyphen-free filtering step
yields no candidate, `getDefaultVersion` throws the fatal corrupted-version-
data error; and it never throws this error when a hyphen-free candidate with
a valid semantic version exists in the list (any parse failure among several
stable candidates surfaces as a TypeError from the sort comparator, not as
this error). -/
theorem claim5_corrupted_data :
    (∀ (storedKey : Option String) (versions : List Entry),
        (∀ v ∈ versions, storedKey ≠ some v.version) →
        versions.filter (fun v => !strIncludes v.version "-") = [] →
        getDefaultVersion storedKey versions = .error .corruptedVersionData) ∧
      ∀ (storedKey : Option String) (versions : List Entry),
        (∃ v ∈ versions, strIncludes v.version "-" = false ∧
          (parseSemver v.version).isSome) →
        getDefaultVersion storedKey versions ≠ .error .corruptedVersionData := by
  constructor
  · intro storedKey versions hnomatch hfe
    have hguard := pref_guard_false storedKey versions hnomatch
    simp only [getDefaultVersion]
    rw [if_neg hguard, hfe]
    simp [List.insertionSort]
  · rintro storedKey versions ⟨v, hv, hhf, hps⟩ hcontra
    obtain ⟨w, hw⟩ := Option.isSome_iff_exists.mp hps
    have hmemS : w ∈ ((versions.filter (fun v => !strIncludes v.version "-")).map
        (fun v => parseSemver v.version)).filterMap id := by
      refine List.mem_filterMap.mpr ⟨parseSemver v.version, ?_, hw⟩
      exact List.mem_map.mpr ⟨v, List.mem_filter.mpr ⟨hv, by simp [hhf]⟩, rfl⟩
    simp only [getDefaultVersion] at hcontra
    split at hcontra
    · exact Except.noConfusion hcontra
    · split at hcontra
      · simp at hcontra
      · split at hcontra
        · simp at hcontra
        · rename_i heq
          rw [List.head?_eq_none_iff] at heq
          have : w ∈ List.insertionSort svGe
              (((versions.filter (fun v => !strIncludes v.version "-")).map
                (fun v => parseSemver v.version)).filterMap id) :=
            (List.mem_insertionSort svGe).mpr hmemS
          rw [heq] at this
          exact absurd this (List.not_mem_nil w)

/-- C5 witness: an all-pre-release candidate list raises the fatal
corrupted-data condition. -/
theorem claim5_witness :
    getDefaultVersion none [mkVersion "11.0.0-beta.1" none none] =
      .error .corruptedVersionData :=
  claim5_corrupted_data.1 none [mkVersion "11.0.0-beta.1" none none]
    (by decide) (by decide)

/-- C1 (counterexample): with the default supported-branch count N = 4 and a
catalog holding only two branch markers, `getOldestSupportedMajor` returns
`some 8` (the oldest marker), not the absence value: `slice(-4)` on a
shorter array yields the whole array and `shift()` then returns its first
element. -/
theorem claim1_counterexample :
    numStableBranches none = 4 ∧
      (["8.0.0", "9.0.0"].filter (fun v => strEndsWith v ".0.0")).length = 2 ∧
      getOldestSupportedMajor ["8.0.0", "9.0.0"] none = some 8 :=
  ⟨rfl, rfl, rfl⟩

/-- C1 (amended): with fewer (parsed) branch markers than the configured
supported-branch count, `getOldestSupportedMajor` returns the absence value
only when there are no branch markers at all; when at least one exists it
returns the smallest (oldest) marker major instead. -/
theorem claim1_few_markers (catalog : List String) (env : Option String)
    (hpos : 0 < numStableBranches env)
    (hlt : ((catalog.filter (fun v => strEndsWith v ".0.0")).filterMap
        jsParseInt).length < (numStableBranches env).toNat) :
    ((catalog.filter (fun v => strEndsWith v ".0.0")).filterMap jsParseInt = [] →
        getOldestSupportedMajor catalog env = none) ∧
      ((catalog.filter (fun v => strEndsWith v ".0.0")).filterMap jsParseInt ≠ [] →
        ∃ m, m ∈ (catalog.filter (fun v => strEndsWith v ".0.0")).filterMap jsParseInt ∧
          (∀ x ∈ (catalog.filter (fun v => strEndsWith v ".0.0")).filterMap jsParseInt,
            m ≤ x) ∧
          getOldestSupportedMajor catalog env = some m) := by
  have hred : getOldestSupportedMajor catalog env =
      (List.insertionSort (fun a b : Int => a ≤ b)
        ((catalog.filter (fun v => strEndsWith v ".0.0")).filterMap jsParseInt)).head? := by
    simp only [getOldestSupportedMajor, jsSliceNeg]
    rw [if_pos hpos, List.length_insertionSort,
      Nat.sub_eq_zero_of_le (le_of_lt hlt), List.drop_zero]
  constructor
  · intro hnil
    rw [hred, hnil]
    rfl
  · intro hne
    obtain ⟨m, hh⟩ : ∃ m, (List.insertionSort (fun a b : Int => a ≤ b)
        ((catalog.filter (fun v => strEndsWith v ".0.0")).filterMap
          jsParseInt)).head? = some m := by
      cases hh : (List.insertionSort (fun a b : Int => a ≤ b)
          ((catalog.filter (fun v => strEndsWith v ".0.0")).filterMap
            jsParseInt)).head? with
      | some m => exact ⟨m, rfl⟩
      | none =>
          rw [List.head?_eq_none_iff] at hh
          have hperm := List.perm_insertionSort (fun a b : Int => a ≤ b)
            ((catalog.filter (fun v => strEndsWith v ".0.0")).filterMap jsParseInt)
          rw [hh] at hperm
          exact absurd hperm.symm.eq_nil hne
    obtain ⟨hmem, hmin⟩ := head_sorted_intLe hh
    exact ⟨m, hmem, hmin, by rw [hred, hh]⟩

/-- C1 witness: the amended claim applied to the two-marker catalog. -/
theorem claim1_witness :
    ∃ m, m ∈ (["8.0.0", "9.0.0"].filter
        (fun v => strEndsWith v ".0.0")).filterMap jsParseInt ∧
      (∀ x ∈ (["8.0.0", "9.0.0"].filter
          (fun v => strEndsWith v ".0.0")).filterMap jsParseInt, m ≤ x) ∧
      getOldestSupportedMajor ["8.0.0", "9.0.0"] none = some m :=
  (claim1_few_markers ["8.0.0", "9.0.0"] none (by decide) (by decide)).2 (by decide)

/-- C8: `getOldestSupportedMajor` filters catalog entries whose version ends
in ".0.0", parses each leading integer, sorts ascending and (when at least N
markers exist) returns the element at index count - N of the sorted list,
with N defaulting to 4 when the supported-branch count is unset or
non-numeric; over branch markers [8,9,10,11,12] with N = 4 it returns 9. -/
theorem claim8_oldest_supported :
    (∀ (catalog : List String) (env : Option String),
        0 < numStableBranches env →
        (numStableBranches env).toNat ≤
          ((catalog.filter (fun v => strEndsWith v ".0.0")).filterMap
            jsParseInt).length →
        ∃ s : List Int,
          ((catalog.filter (fun v => strEndsWith v ".0.0")).filterMap
              jsParseInt).Perm s ∧
            s.Sorted (· ≤ ·) ∧
            getOldestSupportedMajor catalog env =
              s[((catalog.filter (fun v => strEndsWith v ".0.0")).filterMap
                  jsParseInt).length - (numStableBranches env).toNat]?) ∧
      numStableBranches none = 4 ∧ numStableBranches (some "four") = 4 ∧
      getOldestSupportedMajor ["8.0.0", "9.0.0", "10.0.0", "11.0.0", "12.0.0"]
          none = some 9 := by
  refine ⟨?_, rfl, rfl, rfl⟩
  intro catalog env hpos hge
  refine ⟨List.insertionSort (fun a b : Int => a ≤ b)
      ((catalog.filter (fun v => strEndsWith v ".0.0")).filterMap jsParseInt),
    (List.perm_insertionSort _ _).symm, List.sorted_insertionSort _ _, ?_⟩
  simp only [getOldestSupportedMajor, jsSliceNeg]
  rw [if_pos hpos, List.length_insertionSort, List.head?_drop]

/-- C8 witness: the general clause applied to the five-marker catalog. -/
theorem claim8_witness :
    ∃ s : List Int,
      ((["8.0.0", "9.0.0", "10.0.0", "11.0.0", "12.0.0"].filter
            (fun v => strEndsWith v ".0.0")).filterMap jsParseInt).Perm s ∧
        s.Sorted (· ≤ ·) ∧
        getOldestSupportedMajor ["8.0.0", "9.0.0", "10.0.0", "11.0.0", "12.0.0"]
            none =
          s[((["8.0.0", "9.0.0", "10.0.0", "11.0.0", "12.0.0"].filter
              (fun v => strEndsWith v ".0.0")).filterMap jsParseInt).length -
            (numStableBranches none).toNat]? :=
  claim8_oldest_supported.1 ["8.0.0", "9.0.0", "10.0.0", "11.0.0", "12.0.0"]
    none (by decide) (by decide)

/-- C2 (counterexample): a plain `Version` with no `localPath` (its derived
source would be remote) passes `saveLocalVersions` unfiltered — plain
entries carry no `source` discriminant — and survives the reload, so the
round-trip result is not the subset of entries with truthy `localPath`. -/
theorem claim2_counterexample :
    truthyStr (mkVersion "1.0.0" none none).localPath = false ∧
      (getVersionsLocal (some (saveLocalVersions
          [mkVersion "1.0.0" none none]))).1 = [mkVersion "1.0.0" none none] :=
  ⟨rfl, rfl⟩

/-- C2 (amended): for every list of entries each carrying a non-empty
version string, saving it to the local-entries store and reloading yields
exactly those input entries that either carry no `source` discriminant
(plain `Version`) or whose `source` is `local`, in input order. -/
theorem claim2_roundtrip (l : List Entry) (hv : ∀ e ∈ l, e.version ≠ "") :
    (getVersionsLocal (some (saveLocalVersions l))).1 =
      l.filter (fun v =>
        !isElectronVersion v || v.source == some VersionSource.«local») := by
  have hsave : saveLocalVersions l =
      l.filter (fun v =>
        !isElectronVersion v || v.source == some VersionSource.«local») := by
    unfold saveLocalVersions
    apply List.filter_congr
    intro v hv'
    cases hsv : isElectronVersion v <;> simp [hsv]
  have hfmt : isExpectedFormat (saveLocalVersions l) = true := by
    unfold isExpectedFormat
    rw [List.all_eq_true]
    intro e he
    rw [hsave] at he
    simpa using hv e (List.mem_filter.mp he).1
  simp only [getVersionsLocal]
  rw [if_pos hfmt]
  exact hsave

/-- C2 witness: round trip over a mixed list — a plain local entry, a
runnable remote entry (dropped) and a runnable local entry (kept). -/
theorem claim2_witness :
    (getVersionsLocal (some (saveLocalVersions
        [mkVersion "1.0.0" none (some "/a"),
         ⟨"2.0.0", none, none, none, none, some VersionSource.remote,
           some InstallState.missing⟩,
         ⟨"3.0.0", none, some "/b", none, none, some VersionSource.«local»,
           some InstallState.installed⟩]))).1 =
      [mkVersion "1.0.0" none (some "/a"),
       ⟨"3.0.0", none, some "/b", none, none, some VersionSource.«local»,
         some InstallState.installed⟩] := by
  rw [claim2_roundtrip _ (by decide)]
  decide

/-- C10: `addLocalVersion` is idempotent with respect to `localPath` — for a
well-formed store (non-empty versions, entries plain or source-local) that
already holds an entry with the input's `localPath`, the stored list is left
unchanged, the new entry's other fields are discarded (no duplicate is
appended), and the returned list equals the stored list. -/
theorem claim10_add_idempotent (vs : List Entry) (input : Entry)
    (hfmt : ∀ e ∈ vs, e.version ≠ "")
    (hinv : ∀ e ∈ vs, e.source = none ∨ e.source = some VersionSource.«local»)
    (hdup : ∃ v ∈ vs, v.localPath = input.localPath) :
    addLocalVersion (some vs) input = (vs, some vs) := by
  have hfmt' : isExpectedFormat vs = true := by
    unfold isExpectedFormat
    rw [List.all_eq_true]
    intro e he
    simpa using hfmt e he
  have hget : getVersionsLocal (some vs) = (vs, some vs) := by
    simp only [getVersionsLocal]
    rw [if_pos hfmt']
  have hany : vs.any (fun v => v.localPath == input.localPath) = true := by
    obtain ⟨v, hv, hveq⟩ := hdup
    exact List.any_eq_true.mpr ⟨v, hv, by simpa using hveq⟩
  have hsave : saveLocalVersions vs = vs := by
    unfold saveLocalVersions
    apply List.filter_eq_self.mpr
    intro e he
    rcases hinv e he with h | h <;> simp [isElectronVersion, h]
  simp only [addLocalVersion, hget]
  rw [if_pos hany, hsave]

/-- C10 witness: adding a second entry at an already-registered path leaves
the one-entry store untouched and returns it. -/
theorem claim10_witness :
    addLocalVersion (some [mkVersion "1.0.0" none (some "/a")])
        (mkVersion "2.0.0" (some "other") (some "/a")) =
      ([mkVersion "1.0.0" none (some "/a")],
        some [mkVersion "1.0.0" none (some "/a")]) :=
  claim10_add_idempotent [mkVersion "1.0.0" none (some "/a")]
    (mkVersion "2.0.0" (some "other") (some "/a")) (by decide) (by decide)
    ⟨mkVersion "1.0.0" none (some "/a"), by simp, rfl⟩

end Fiddle
